import Mathlib

/-!
Verification of `scripts/download_people_assets.py`.

Python strings are embedded as `List Char` (`Str`).  Pure helpers of the
script (`ensure_https`, `sanitize_filename`, `determine_extension`) are
translated directly; the `urllib.parse.urlparse` accesses used by the script
(`netloc`, `path`) are modelled by `netloc` / `pyPath` below, following
CPython's `urlsplit`.  Network-facing functions take explicit oracle
environments and the orchestration (`resolve_source`, the per-entity loop of
`main`) is embedded with an explicit trace of outbound calls.
-/

set_option autoImplicit false

namespace DownloadAssets

/-- Python strings, embedded as lists of characters. -/
abbrev Str := List Char

/-- `strStarts p s` is Python's `s.startswith(p)`. -/
def strStarts : Str → Str → Bool
  | [], _ => true
  | _ :: _, [] => false
  | p :: ps, c :: cs => p == c && strStarts ps cs

/-- `strHas n h` is Python's `n in h` (substring containment). -/
def strHas (n : Str) : Str → Bool
  | [] => strStarts n []
  | c :: cs => strStarts n (c :: cs) || strHas n cs

/-- Python's `s.split(sep)` for a single-character separator. -/
def splitSep (sep : Char) : Str → List Str
  | [] => [[]]
  | c :: rest =>
    let r := splitSep sep rest
    if c == sep then [] :: r
    else
      match r with
      | [] => [[c]]
      | h :: t => (c :: h) :: t

/-- Split a string at its first `':'`, if any (CPython `url.find(':')`). -/
def findColonSplit : Str → Option (Str × Str)
  | [] => none
  | c :: rest =>
    if c == ':' then some ([], rest)
    else (findColonSplit rest).map (fun p => (c :: p.1, p.2))

/-- The characters CPython's `urlsplit` allows in a URL scheme. -/
def schemeChar (c : Char) : Bool :=
  c.isAlphanum || c == '+' || c == '-' || c == '.'

/-- CPython `urlsplit` scheme test: nonempty, leading ASCII letter, all
characters drawn from `scheme_chars`. -/
def validScheme : Str → Bool
  | [] => false
  | c :: cs => c.isAlpha && (c :: cs).all schemeChar

/-- Strip a leading `scheme:` from a URL when present (CPython `urlsplit`). -/
def afterScheme (u : Str) : Str :=
  match findColonSplit u with
  | some (pre, post) => if validScheme pre then post else u
  | none => u

/-- A character terminating the authority component (`/`, `?` or `#`). -/
def netlocEnd (c : Char) : Bool :=
  c == '/' || c == '?' || c == '#'

/-- `urlparse(u).netloc`: present only when the part after the scheme starts
with `//`; extends to the first of `/`, `?`, `#`. -/
def netloc (u : Str) : Str :=
  let rest := afterScheme u
  if strStarts ('/' :: '/' :: []) rest then
    (rest.drop 2).takeWhile (fun c => !netlocEnd c)
  else []

/-- `urlparse(u).path`: what follows the authority, with query and fragment
stripped. -/
def pyPath (u : Str) : Str :=
  let rest := afterScheme u
  let rest2 :=
    if strStarts ('/' :: '/' :: []) rest then
      (rest.drop 2).dropWhile (fun c => !netlocEnd c)
    else rest
  rest2.takeWhile (fun c => !(c == '?' || c == '#'))

/-- `s.split(sep)[0]`. -/
def firstLabel (s : Str) : Str := (splitSep '.' s).headD []

/-- `s.split("/")[-1]`. -/
def lastSegment (s : Str) : Str := ((splitSep '/' s).getLast?).getD []

/-- `ensure_https` from the script: `//…` gets `https:` prefixed, `http://…`
becomes `https://…`, anything else is returned unchanged. -/
def ensure_https (url : Str) : Str :=
  if strStarts "//".toList url then "https:".toList ++ url
  else if strStarts "http://".toList url then
    "https://".toList ++ url.drop "http://".toList.length
  else url

/-- A character of the class `[\\/:*?"<>|]` in `sanitize_filename`. -/
def unsafeChar (c : Char) : Bool :=
  c == '\\' || c == '/' || c == ':' || c == '*' || c == '?' ||
    c == '"' || c == '<' || c == '>' || c == '|'

/-- `re.sub(r"[\\/:*?\"<>|]+", "_", name)` as a left-to-right scan: the flag
records whether the scan is inside a run of unsafe characters; the first
character of each maximal run emits `'_'`, the rest of the run emits
nothing. -/
def collapseGo (inRun : Bool) : Str → Str
  | [] => []
  | c :: rest =>
    if unsafeChar c then
      if inRun then collapseGo true rest else '_' :: collapseGo true rest
    else c :: collapseGo false rest

/-- Each maximal run of unsafe characters becomes a single underscore. -/
def collapseUnsafe (s : Str) : Str := collapseGo false s

/-- `sanitize_filename` from the script: collapse unsafe runs to `_`, delete
spaces, append the extension. -/
def sanitize_filename (name ext : Str) : Str :=
  (collapseUnsafe name).filter (fun c => !(c == ' ')) ++ ext

/-- Split a string at its last `'.'` (dot kept with the suffix), if any. -/
def lastDotSplit : Str → Option (Str × Str)
  | [] => none
  | c :: rest =>
    match lastDotSplit rest with
    | some (p, s) => some (c :: p, s)
    | none => if c == '.' then some ([], c :: rest) else none

/-- The extension part of `os.path.splitext` applied to a basename: from the
last dot, provided some earlier character of the basename is not a dot. -/
def extOfBasename (b : Str) : Str :=
  match lastDotSplit b with
  | none => []
  | some (pre, suf) => if pre.any (fun c => !(c == '.')) then suf else []

/-- The extensions accepted by the script (`SUPPORTED_EXTS`). -/
def supportedExt (e : Str) : Bool :=
  e == ".jpg".toList || e == ".jpeg".toList || e == ".png".toList ||
    e == ".webp".toList || e == ".gif".toList

/-- `determine_extension` from the script: lower-cased `splitext` extension of
the URL path, `.jpeg` normalised to `.jpg`, anything unsupported to `.jpg`. -/
def determine_extension (url : Str) : Str :=
  let path := pyPath url
  let ext := (extOfBasename (lastSegment path)).map Char.toLower
  if supportedExt ext then
    if ext == ".jpeg".toList then ".jpg".toList else ext
  else ".jpg".toList

/-! ## JSON values and the pre-existing manifest

`main` reads `manifest.json` with `json.loads`, catching only
`json.JSONDecodeError`, and builds `{item["name"]: item for item in data}`.
A decode failure is modelled as `none`; a successfully decoded document as
`some (j : JValue)`.  The comprehension can raise `KeyError`/`TypeError` on
well-formed JSON of the wrong shape; those escapes are modelled by
`Except.error`. -/

/-- JSON values (numbers kept abstract as integers; no claim involves
numeric payloads). -/
inductive JValue where
  | null : JValue
  | bool : Bool → JValue
  | num : Int → JValue
  | str : Str → JValue
  | arr : List JValue → JValue
  | obj : List (Str × JValue) → JValue

/-- Equality test used for Python dict keys; arrays/objects are unhashable
and never stored as keys, so they compare unequal here. -/
def jKeyEq : JValue → JValue → Bool
  | .null, .null => true
  | .bool a, .bool b => a == b
  | .num a, .num b => a == b
  | .str a, .str b => a == b
  | _, _ => false

/-- Whether a Python value may be used as a dict key (hashable). -/
def jHashable : JValue → Bool
  | .arr _ => false
  | .obj _ => false
  | _ => true

/-- Lookup of a string key in a decoded JSON object (`item["name"]` on a
dict; keys of a decoded object are unique, so first match suffices). -/
def pyLookup (fs : List (Str × JValue)) (k : Str) : Option JValue :=
  (fs.find? (fun p => p.1 == k)).map (fun p => p.2)

/-- `item["name"]` as used by the manifest comprehension: succeeds iff `item`
is a dict with a (hashable) value under `"name"`; otherwise the Python
exception (`TypeError`/`KeyError`) escapes. -/
def itemName : JValue → Except Str JValue
  | .obj fs =>
    match pyLookup fs "name".toList with
    | none => .error "KeyError: name".toList
    | some v =>
      if jHashable v then .ok v else .error "TypeError: unhashable".toList
  | _ => .error "TypeError: item is not a dict".toList

/-- Python dict assignment `d[k] = v` on an insertion-ordered assoc list. -/
def dictInsert : List (JValue × JValue) → JValue → JValue → List (JValue × JValue)
  | [], k, v => [(k, v)]
  | (k0, v0) :: rest, k, v =>
    if jKeyEq k0 k then (k0, v) :: rest
    else (k0, v0) :: dictInsert rest k v

/-- The dict-comprehension loop `{item["name"]: item for item in data}`. -/
def buildFold : List JValue → List (JValue × JValue) → Except Str (List (JValue × JValue))
  | [], acc => .ok acc
  | item :: rest, acc =>
    match itemName item with
    | .error e => .error e
    | .ok k => buildFold rest (dictInsert acc k item)

/-- The manifest-loading step of `main`.  `none` models a
`json.JSONDecodeError` (caught: empty cache).  Iterating a decoded value that
is not a list raises `TypeError` — except that the empty string and the empty
object iterate to nothing; a nonempty string or object yields string items on
which `item["name"]` raises `TypeError`. -/
def buildExistingManifest : Option JValue → Except Str (List (JValue × JValue))
  | none => .ok []
  | some (.arr items) => buildFold items []
  | some (.str []) => .ok []
  | some (.obj []) => .ok []
  | some (.str (_ :: _)) => .error "TypeError: string indices".toList
  | some (.obj (_ :: _)) => .error "TypeError: string indices".toList
  | some _ => .error "TypeError: not iterable".toList

/-- A manifest document of the shape the script itself writes: a list of
objects each carrying a string `"name"`. -/
def wellFormedManifestJ : JValue → Bool
  | .arr items =>
    items.all (fun it =>
      match it with
      | .obj fs =>
        match pyLookup fs "name".toList with
        | some (.str _) => true
        | _ => false
      | _ => false)
  | _ => false

/-- A malformed pre-existing manifest: either the text fails JSON decoding
(`none`) or the decoded document is not a well-formed manifest. -/
def malformedManifest : Option JValue → Bool
  | none => true
  | some j => !wellFormedManifestJ j

/-- `name in existing_manifest` / `existing_manifest[name]` for a string
`name`: Python `==` between a `str` and a non-`str` key is `False`. -/
def findByStrKey (m : List (JValue × JValue)) (n : Str) : Option JValue :=
  (m.find? (fun p =>
    match p.1 with
    | .str s => s == n
    | _ => false)).map (fun p => p.2)

/-- `existing_entry.get("path", "")` as used on the skip path.  Entries stored
by `buildExistingManifest` are always dicts; a non-string `"path"` value
(which would crash Python's path join, a case no claim touches) maps to `""`. -/
def entryPath (v : JValue) : Str :=
  match v with
  | .obj fs =>
    match pyLookup fs "path".toList with
    | some (.str s) => s
    | _ => []
  | _ => []

/-! ## Provider clients and the resolution chain

The three networked clients (`fetch_baike_api_image`,
`build_wikipedia_source`, `fetch_generic_page_image`) either return an
`(image_url, page_url, provider)` triple or raise `DownloadError`; the chain
`resolve_source` treats them as black boxes, so they enter the model as an
oracle environment, and the model additionally records the trace of client
calls the chain issues.  `fetch_generic_page_image` is also embedded
concretely (over an HTTP/extraction oracle) because one claim concerns its
provider label. -/

/-- The `(image_url, page_url, provider)` triple of a successful client. -/
structure Resolved where
  imageUrl : Str
  sourcePageUrl : Str
  provider : Str
  deriving DecidableEq

/-- Oracles for the three provider clients as seen by `resolve_source`:
`baike` is `fetch_baike_api_image`, `wiki` is `build_wikipedia_source`,
`generic` is `fetch_generic_page_image`.  An `error` is a raised
`DownloadError` with its message. -/
structure Env where
  baike : Str → Except Str Resolved
  wiki : Str → Str → Except Str Resolved
  generic : Str → Except Str Resolved

/-- One outbound call issued during per-entity processing. -/
inductive Call where
  | baike : Str → Call
  | wiki : Str → Str → Call
  | generic : Str → Call
  | download : Str → Call
  deriving DecidableEq

/-- Oracles for `fetch_generic_page_image`: `get` returns the HTTP status and
body of `session.get`; `extract` is the three-pattern `og:image` /
`image_src` regex cascade run over the body (its internals are not the
subject of any claim). -/
structure GenericEnv where
  get : Str → Nat × Str
  extract : Str → Option Str

/-- `fetch_generic_page_image` from the script: fail on non-200, fail when no
image pattern matches, otherwise normalise the image URL and label the
provider `"Baidu Baike"` when the *page URL string* contains
`baike.baidu.com`, else with `urlparse(page_url).netloc`. -/
def fetch_generic_page_image (genv : GenericEnv) (page_url : Str) :
    Except Str Resolved :=
  let resp := genv.get page_url
  if resp.1 ≠ 200 then .error "Fallback page HTTP error".toList
  else
    match genv.extract resp.2 with
    | none => .error "Fallback page missing og:image".toList
    | some img =>
      let provider :=
        if strHas "baike.baidu.com".toList page_url then "Baidu Baike".toList
        else netloc page_url
      .ok ⟨ensure_https img, page_url, provider⟩

/-- `BAIKE_PREFERRED` from the script. -/
def baikePreferredNames : List Str :=
  ["周柯宇".toList, "姚明明".toList, "张耀".toList, "李马克".toList,
    "王皓轩".toList, "赖冠霖".toList, "魏子越".toList]

/-- `name in BAIKE_PREFERRED`. -/
def baikePreferred (n : Str) : Bool := baikePreferredNames.contains n

/-- `MANUAL_WIKI_OVERRIDES` from the script, as `(name, (lang, title))`. -/
def manualWikiOverrides : List (Str × (Str × Str)) :=
  [("李在玟".toList, ("en".toList, "Lee_Jeno".toList))]

/-- Override lookup (`MANUAL_WIKI_OVERRIDES[name]`). -/
def findOverride (n : Str) : Option (Str × Str) :=
  (manualWikiOverrides.find? (fun p => p.1 == n)).map (fun p => p.2)

/-- `urlparse(fallback_url).netloc.split(".")[0]` — the language the chain
reads off a `wikipedia.org` fallback URL. -/
def fallbackLang (u : Str) : Str := firstLabel (netloc u)

/-- `urlparse(fallback_url).path.split("/")[-1] or wiki_title` — the title
the chain reads off a `wikipedia.org` fallback URL. -/
def fallbackTitle (wiki_title u : Str) : Str :=
  if lastSegment (pyPath u) == [] then wiki_title else lastSegment (pyPath u)

/-- The `if fallback_url:` block of `resolve_source`: reinterpret a
`wikipedia.org` fallback URL as `(lang, title)` and retry the summary client,
otherwise scrape the fallback page directly.  Returns the success (if any),
the `DownloadError` message (if it failed) and the calls issued. -/
def tryFallbackStage (env : Env) (wiki_title fallback_url : Str) :
    Option Resolved × Option Str × List Call :=
  if strHas "wikipedia.org".toList (netloc fallback_url) then
    match env.wiki (fallbackLang fallback_url) (fallbackTitle wiki_title fallback_url) with
    | .ok r => (some r, none, [.wiki (fallbackLang fallback_url) (fallbackTitle wiki_title fallback_url)])
    | .error e => (none, some e, [.wiki (fallbackLang fallback_url) (fallbackTitle wiki_title fallback_url)])
  else
    match env.generic fallback_url with
    | .ok r => (some r, none, [.generic fallback_url])
    | .error e => (none, some e, [.generic fallback_url])

/-- The closing `try: return fetch_baike_api_image(name) … raise last_error`
of `resolve_source`: on success return, on failure re-raise the Baike error
(the `last_error` set by earlier stages is dead at this point, since the
`except` clause overwrites it with `baike_err` before the `raise`). -/
def finalBaikeStage (env : Env) (name : Str) (t : List Call) :
    Except Str Resolved × List Call :=
  match env.baike name with
  | .ok r => (.ok r, t ++ [.baike name])
  | .error be => (.error be, t ++ [.baike name])

/-- The `except DownloadError as wiki_error:` branch of `resolve_source`:
the fallback URL (when present and non-empty — Python tests its truthiness),
then the final Baike attempt. -/
def afterStep3Fail (env : Env) (name wiki_title : Str)
    (fallback_map : Str → Option Str) (t0 : List Call) :
    Except Str Resolved × List Call :=
  match fallback_map name with
  | none => finalBaikeStage env name t0
  | some u =>
    if u == [] then finalBaikeStage env name t0
    else
      match tryFallbackStage env wiki_title u with
      | (some r, _, calls) => (.ok r, t0 ++ calls)
      | (none, _, calls) => finalBaikeStage env name (t0 ++ calls)

/-- Steps 3–6 of `resolve_source`: the entity's own `(wiki_lang, wiki_title)`
summary lookup, falling into `afterStep3Fail` on failure. -/
def resolveFromOwnWiki (env : Env) (name wiki_lang wiki_title : Str)
    (fallback_map : Str → Option Str) : Except Str Resolved × List Call :=
  match env.wiki wiki_lang wiki_title with
  | .ok r => (.ok r, [.wiki wiki_lang wiki_title])
  | .error _ =>
    afterStep3Fail env name wiki_title fallback_map [.wiki wiki_lang wiki_title]

/-- Steps 2–6 of `resolve_source`: the manual-override attempt (error
swallowed), then `resolveFromOwnWiki`. -/
def resolveFromOverrides (env : Env) (name wiki_lang wiki_title : Str)
    (fallback_map : Str → Option Str) : Except Str Resolved × List Call :=
  match findOverride name with
  | none => resolveFromOwnWiki env name wiki_lang wiki_title fallback_map
  | some (olang, otitle) =>
    match env.wiki olang otitle with
    | .ok r => (.ok r, [.wiki olang otitle])
    | .error _ =>
      match resolveFromOwnWiki env name wiki_lang wiki_title fallback_map with
      | (res, t2) => (res, .wiki olang otitle :: t2)

/-- `resolve_source` from the script, instrumented with the call trace:
Baike-preferred names try the Baike API first (error swallowed), then the
manual override, then the entity's own wiki data with its fallback chain. -/
def resolve_source (env : Env) (name wiki_lang wiki_title : Str)
    (fallback_map : Str → Option Str) : Except Str Resolved × List Call :=
  if baikePreferred name then
    match env.baike name with
    | .ok r => (.ok r, [.baike name])
    | .error _ =>
      match resolveFromOverrides env name wiki_lang wiki_title fallback_map with
      | (res, t2) => (res, .baike name :: t2)
  else resolveFromOverrides env name wiki_lang wiki_title fallback_map

/-! ## The per-entity loop of `main`

`main` iterates over the parsed celebrities; per entity it either reuses the
cached manifest entry (no network) or resolves, downloads and records a fresh
entry, converting any exception into a failure record.  The filesystem and
the downloader enter as oracles (`fileExists` models
`(ROOT / path).exists()`; `download` models `download_file`, which raises
`DownloadError` on a non-200 response). -/

/-- One parsed celebrity (`{"name": …, "wiki_lang": …, "wiki_title": …}`). -/
structure Entity where
  name : Str
  wiki_lang : Str
  wiki_title : Str
  deriving DecidableEq

/-- A `{"name": …, "error": …}` record appended to `failures`. -/
structure FailureRecord where
  name : Str
  error : Str
  deriving DecidableEq

/-- The dict appended to `results` after a fresh download. -/
def freshEntry (name filename : Str) (r : Resolved) : JValue :=
  .obj [("name".toList, .str name),
    ("path".toList, .str ("assets/people/".toList ++ filename)),
    ("sourceUrl".toList, .str r.sourcePageUrl),
    ("imageUrl".toList, .str r.imageUrl),
    ("provider".toList, .str r.provider)]

/-- The `"name"` field of a recorded result (cached entries are dicts built
by `buildExistingManifest`; fresh entries always carry a string name). -/
def jName (v : JValue) : Str :=
  match v with
  | .obj fs =>
    match pyLookup fs "name".toList with
    | some (.str s) => s
    | _ => []
  | _ => []

/-- The resolve-and-download half of the loop body (the `try:` block). -/
def processFresh (env : Env) (download : Str → Except Str Unit)
    (fallback_map : Str → Option Str) (ent : Entity) :
    (JValue ⊕ FailureRecord) × List Call :=
  match resolve_source env ent.name ent.wiki_lang ent.wiki_title fallback_map with
  | (.error e, calls) => (.inr ⟨ent.name, e⟩, calls)
  | (.ok r, calls) =>
    let ext := determine_extension r.imageUrl
    let filename := sanitize_filename ent.name ext
    match download r.imageUrl with
    | .error e => (.inr ⟨ent.name, e⟩, calls ++ [.download r.imageUrl])
    | .ok _ => (.inl (freshEntry ent.name filename r), calls ++ [.download r.imageUrl])

/-- One iteration of the loop in `main`: the skip path reuses the cached
entry verbatim with no outbound call; otherwise resolve and download. -/
def processOne (env : Env) (download : Str → Except Str Unit)
    (fileExists : Str → Bool) (force : Bool)
    (manifest : List (JValue × JValue)) (fallback_map : Str → Option Str)
    (ent : Entity) : (JValue ⊕ FailureRecord) × List Call :=
  match if force then none else findByStrKey manifest ent.name with
  | some existing_entry =>
    if fileExists (entryPath existing_entry) then (.inl existing_entry, [])
    else processFresh env download fallback_map ent
  | none => processFresh env download fallback_map ent

/-- The whole loop: accumulate `results` and `failures` in order; a failing
entity only adds a failure record, the loop always continues. -/
def runAll (env : Env) (download : Str → Except Str Unit)
    (fileExists : Str → Bool) (force : Bool)
    (manifest : List (JValue × JValue)) (fallback_map : Str → Option Str) :
    List Entity → List JValue × List FailureRecord
  | [] => ([], [])
  | ent :: rest =>
    let tail := runAll env download fileExists force manifest fallback_map rest
    match (processOne env download fileExists force manifest fallback_map ent).1 with
    | .inl v => (v :: tail.1, tail.2)
    | .inr f => (tail.1, f :: tail.2)

/-- The `OrderedDict.setdefault` loop of `load_celebrities`, with the set of
already-seen display names made explicit. -/
def dedupGo (seen : List Str) : List Entity → List Entity
  | [] => []
  | e :: rest =>
    if seen.contains e.name then dedupGo seen rest
    else e :: dedupGo (e.name :: seen) rest

/-- The deduplication of `load_celebrities`: the first occurrence of each
display name wins, insertion order preserved. -/
def dedupByName (l : List Entity) : List Entity := dedupGo [] l

/-! ## Concrete instances used to evaluate the model -/

/-- A page-scrape environment that always serves a page with an image. -/
def okPageEnv : GenericEnv :=
  ⟨fun _ => (200, "page".toList), fun _ => some "https://img.example/x.jpg".toList⟩

/-- A non-Baike URL whose *string* contains `baike.baidu.com` in the path. -/
def trickyUrl : Str := "https://example.com/baike.baidu.com".toList

/-- An environment in which every provider client fails. -/
def allFailEnv : Env :=
  ⟨fun _ => .error "baike down".toList,
    fun _ _ => .error "wiki down".toList,
    fun _ => .error "page down".toList⟩

/-- A successful Baike result. -/
def baikeResolved : Resolved :=
  ⟨"https://img.example/b.jpg".toList,
    "https://baike.baidu.com/item/x".toList, "Baidu Baike".toList⟩

/-- An environment in which only the Baike API succeeds. -/
def baikeOnlyEnv : Env :=
  ⟨fun _ => .ok baikeResolved,
    fun _ _ => .error "wiki down".toList,
    fun _ => .error "page down".toList⟩

/-- A successful summary-client result for a fallback wiki URL. -/
def enWikiResolved : Resolved :=
  ⟨"https://img.example/w.jpg".toList,
    "https://en.wikipedia.org/wiki/Foo_Bar".toList, "EN Wikipedia".toList⟩

/-- An environment in which only the summary client on `("en", "Foo_Bar")`
succeeds. -/
def enOnlyEnv : Env :=
  ⟨fun _ => .error "baike down".toList,
    fun l t =>
      if l == "en".toList && t == "Foo_Bar".toList then .ok enWikiResolved
      else .error "wiki down".toList,
    fun _ => .error "page down".toList⟩

/-- A downloader that always succeeds. -/
def downloadOK : Str → Except Str Unit := fun _ => .ok ()

/-- A filesystem on which every path exists. -/
def fileYes : Str → Bool := fun _ => true

/-- A cached manifest entry for entity `"X"`. -/
def cachedEntryX : JValue :=
  .obj [("name".toList, .str "X".toList),
    ("path".toList, .str "assets/people/X.jpg".toList)]

/-- A loaded manifest caching entity `"X"`. -/
def manifestX : List (JValue × JValue) := [(.str "X".toList, cachedEntryX)]

/-- A fallback map giving entity `"X"` an English-Wikipedia fallback URL. -/
def enFallbackMap : Str → Option Str := fun n =>
  if n == "X".toList then some "https://en.wikipedia.org/wiki/Foo_Bar".toList
  else none

/-! ## Lemmas about the URL normalizer -/

theorem strStarts_slashes_https (u : Str) :
    strStarts "//".toList ("https:".toList ++ u) = false := rfl

theorem strStarts_http_https (u : Str) :
    strStarts "http://".toList ("https:".toList ++ u) = false := rfl

theorem strStarts_slashes_https2 (u : Str) :
    strStarts "//".toList ("https://".toList ++ u) = false := rfl

theorem strStarts_http_https2 (u : Str) :
    strStarts "http://".toList ("https://".toList ++ u) = false := rfl

/-- C8: the URL normalizer is total and pure by construction; a string
starting with `//` gets `https:` prefixed, a string starting with `http://`
has that prefix replaced by `https://`, and every other string is returned
unchanged — checked on the spec's three examples as well. -/
theorem ensure_https_spec :
    (∀ u : Str,
      (strStarts "//".toList u = true ∧ ensure_https u = "https:".toList ++ u)
      ∨ (strStarts "//".toList u = false ∧ strStarts "http://".toList u = true ∧
          ensure_https u = "https://".toList ++ u.drop "http://".toList.length)
      ∨ (strStarts "//".toList u = false ∧ strStarts "http://".toList u = false ∧
          ensure_https u = u))
    ∧ ensure_https "//x.com/a.jpg".toList = "https://x.com/a.jpg".toList
    ∧ ensure_https "http://x.com/a.jpg".toList = "https://x.com/a.jpg".toList
    ∧ ensure_https "https://x.com/a.jpg".toList = "https://x.com/a.jpg".toList := by
  refine ⟨fun u => ?_, by decide, by decide, by decide⟩
  by_cases h1 : strStarts "//".toList u = true
  · exact Or.inl ⟨h1, by unfold ensure_https; rw [if_pos h1]⟩
  · by_cases h2 : strStarts "http://".toList u = true
    · refine Or.inr (Or.inl ⟨Bool.not_eq_true _ ▸ h1, h2, ?_⟩)
      unfold ensure_https
      rw [if_neg h1, if_pos h2]
    · refine Or.inr (Or.inr ⟨Bool.not_eq_true _ ▸ h1, Bool.not_eq_true _ ▸ h2, ?_⟩)
      unfold ensure_https
      rw [if_neg h1, if_neg h2]

/-- C10: the URL normalizer is idempotent, and no normalized output starts
with `//` or `http://` again. -/
theorem ensure_https_idempotent (u : Str) :
    ensure_https (ensure_https u) = ensure_https u
    ∧ strStarts "//".toList (ensure_https u) = false
    ∧ strStarts "http://".toList (ensure_https u) = false := by
  by_cases h1 : strStarts "//".toList u = true
  · have hv : ensure_https u = "https:".toList ++ u := by
      unfold ensure_https; rw [if_pos h1]
    rw [hv]
    refine ⟨?_, strStarts_slashes_https u, strStarts_http_https u⟩
    unfold ensure_https
    rw [if_neg (by rw [strStarts_slashes_https]; exact Bool.false_ne_true),
      if_neg (by rw [strStarts_http_https]; exact Bool.false_ne_true)]
  · by_cases h2 : strStarts "http://".toList u = true
    · have hv : ensure_https u =
          "https://".toList ++ u.drop "http://".toList.length := by
        unfold ensure_https; rw [if_neg h1, if_pos h2]
      rw [hv]
      refine ⟨?_, strStarts_slashes_https2 _, strStarts_http_https2 _⟩
      unfold ensure_https
      rw [if_neg (by rw [strStarts_slashes_https2]; exact Bool.false_ne_true),
        if_neg (by rw [strStarts_http_https2]; exact Bool.false_ne_true)]
    · have hv : ensure_https u = u := by
        unfold ensure_https; rw [if_neg h1, if_neg h2]
      rw [hv]
      exact ⟨hv, Bool.not_eq_true _ ▸ h1, Bool.not_eq_true _ ▸ h2⟩

/-! ## Filename sanitization -/

/-- C1 (counterexample): the sanitizer does not strip unsafe characters;
`sanitize_filename("A/B:C", ".png")` is not `"ABC.png"`. -/
theorem sanitize_filename_not_stripped :
    sanitize_filename "A/B:C".toList ".png".toList ≠ "ABC.png".toList := by
  decide

/-- Every character produced by the sanitizing scan is safe: unsafe runs are
replaced by `'_'`, which is itself safe. -/
theorem collapseGo_safe (l : Str) :
    ∀ b : Bool, ∀ c ∈ collapseGo b l, unsafeChar c = false := by
  induction l with
  | nil => intro b c hc; simp [collapseGo] at hc
  | cons c rest ih =>
    intro b x hx
    rw [collapseGo] at hx
    by_cases h : unsafeChar c = true
    · rw [if_pos h] at hx
      cases b with
      | true => exact ih true x hx
      | false =>
        rcases List.mem_cons.mp hx with hx | hx
        · subst hx; decide
        · exact ih true x hx
    · rw [if_neg h] at hx
      rcases List.mem_cons.mp hx with hx | hx
      · subst hx; exact Bool.not_eq_true _ ▸ h
      · exact ih false x hx

/-- Every character produced by `collapseUnsafe` is safe. -/
theorem collapseUnsafe_safe (l : Str) :
    ∀ c ∈ collapseUnsafe l, unsafeChar c = false :=
  collapseGo_safe l false

/-- C1 (amended): filesystem-unsafe characters are *replaced* — each maximal
run becomes a single underscore — spaces are removed, and the extension is
appended, so `sanitize_filename("A/B:C", ".png") = "A_B_C.png"`; in general
the name part of the output contains no unsafe character and no space. -/
theorem sanitize_filename_replaces :
    sanitize_filename "A/B:C".toList ".png".toList = "A_B_C.png".toList
    ∧ ∀ name : Str, ∀ c ∈ sanitize_filename name [],
        unsafeChar c = false ∧ c ≠ ' ' := by
  refine ⟨by decide, fun name c hc => ?_⟩
  rw [sanitize_filename, List.append_nil, List.mem_filter] at hc
  refine ⟨collapseUnsafe_safe name c hc.1, ?_⟩
  have h2 := hc.2
  simp only [Bool.not_eq_true'] at h2
  exact fun h => by simp [h] at h2

/-- C1 witness: the general part of the amended claim, evaluated at the name
`"a b"` and its surviving character `'a'`. -/
theorem sanitize_filename_replaces_witness :
    unsafeChar 'a' = false ∧ 'a' ≠ ' ' :=
  sanitize_filename_replaces.2 "a b".toList 'a' (by decide)

/-! ## The Generic-Page client's provider label -/

/-- C2 (counterexample): the script tests `"baike.baidu.com" in page_url` on
the whole URL string, not on its host.  On
`https://example.com/baike.baidu.com` the client succeeds with label
`"Baidu Baike"` although the host `example.com` does not contain
`baike.baidu.com` (and the label is not the host either). -/
theorem generic_provider_not_host_based :
    ¬ (∀ (genv : GenericEnv) (u : Str) (r : Resolved),
        fetch_generic_page_image genv u = .ok r →
          (r.provider = "Baidu Baike".toList ↔
            strHas "baike.baidu.com".toList (netloc u) = true)
          ∧ (strHas "baike.baidu.com".toList (netloc u) = false →
              r.provider = netloc u)) := by
  intro h
  have h2 := h okPageEnv trickyUrl
    ⟨"https://img.example/x.jpg".toList, trickyUrl, "Baidu Baike".toList⟩ rfl
  exact absurd ((h2.1).mp rfl) (by decide)

/-- C2 (amended): on success the Generic-Page client's provider label is
`"Baidu Baike"` exactly when the page URL *string* contains
`baike.baidu.com`, and otherwise it is the page URL's host. -/
theorem generic_provider_label (genv : GenericEnv) (u : Str) (r : Resolved)
    (h : fetch_generic_page_image genv u = .ok r) :
    r.provider =
      (if strHas "baike.baidu.com".toList u then "Baidu Baike".toList
        else netloc u) := by
  unfold fetch_generic_page_image at h
  by_cases hs : (genv.get u).1 ≠ 200
  · rw [if_pos hs] at h; exact absurd h (by simp)
  · rw [if_neg hs] at h
    rcases he : genv.extract (genv.get u).2 with _ | img
    · rw [he] at h; exact absurd h (by simp)
    · rw [he] at h
      have := Except.ok.inj h
      rw [← this]

/-- C2 witness: the amended label rule evaluated on a non-Baike page. -/
theorem generic_provider_label_witness :
    ("example.org".toList : Str) =
      (if strHas "baike.baidu.com".toList "https://example.org/p".toList
        then "Baidu Baike".toList
        else netloc "https://example.org/p".toList) :=
  generic_provider_label okPageEnv "https://example.org/p".toList
    ⟨"https://img.example/x.jpg".toList, "https://example.org/p".toList,
      "example.org".toList⟩ rfl

/-! ## Loading the pre-existing manifest -/

/-- C3 (counterexample): not every malformed manifest is treated as an empty
cache.  The script only catches `json.JSONDecodeError`; the decodable but
malformed document `[{}]` makes the comprehension raise `KeyError`, which
escapes the loading step. -/
theorem manifest_wrong_shape_raises :
    ¬ (∀ p : Option JValue, malformedManifest p = true →
        buildExistingManifest p = .ok []) := by
  intro h
  have h2 := h (some (.arr [.obj []])) rfl
  rw [show buildExistingManifest (some (.arr [.obj []]))
      = .error "KeyError: name".toList from rfl] at h2
  exact Except.noConfusion h2

/-- C3 (amended): a manifest file whose content fails JSON *decoding* is
treated as an empty cache, non-fatally; malformed-but-decodable content can
instead raise an uncaught exception. -/
theorem decode_failure_is_empty_cache :
    buildExistingManifest none = .ok [] := rfl

/-! ## Resolution-chain exhaustion (last error wins) -/

theorem finalBaikeStage_error (env : Env) (name : Str) (t0 : List Call)
    (e : Str) (t : List Call)
    (h : finalBaikeStage env name t0 = (.error e, t)) :
    env.baike name = .error e ∧ t = t0 ++ [Call.baike name] := by
  unfold finalBaikeStage at h
  split at h
  · simp at h
  · next be hb =>
    simp only [Prod.mk.injEq, Except.error.injEq] at h
    exact ⟨by rw [hb, h.1], h.2.symm⟩

theorem afterStep3Fail_error (env : Env) (name wt : Str)
    (fb : Str → Option Str) (t0 : List Call) (e : Str) (t : List Call)
    (h : afterStep3Fail env name wt fb t0 = (.error e, t)) :
    env.baike name = .error e ∧ ∃ t1, t = t1 ++ [Call.baike name] := by
  unfold afterStep3Fail at h
  split at h
  · obtain ⟨h1, h2⟩ := finalBaikeStage_error _ _ _ _ _ h
    exact ⟨h1, t0, h2⟩
  · split at h
    · obtain ⟨h1, h2⟩ := finalBaikeStage_error _ _ _ _ _ h
      exact ⟨h1, t0, h2⟩
    · split at h
      · simp at h
      · next r fst calls heq =>
        obtain ⟨h1, h2⟩ := finalBaikeStage_error _ _ _ _ _ h
        exact ⟨h1, t0 ++ calls, h2⟩

theorem resolveFromOwnWiki_error (env : Env) (name wl wt : Str)
    (fb : Str → Option Str) (e : Str) (t : List Call)
    (h : resolveFromOwnWiki env name wl wt fb = (.error e, t)) :
    env.baike name = .error e ∧ ∃ t1, t = t1 ++ [Call.baike name] := by
  unfold resolveFromOwnWiki at h
  split at h
  · simp at h
  · exact afterStep3Fail_error _ _ _ _ _ _ _ h

theorem resolveFromOverrides_error (env : Env) (name wl wt : Str)
    (fb : Str → Option Str) (e : Str) (t : List Call)
    (h : resolveFromOverrides env name wl wt fb = (.error e, t)) :
    env.baike name = .error e ∧ ∃ t1, t = t1 ++ [Call.baike name] := by
  unfold resolveFromOverrides at h
  split at h
  · exact resolveFromOwnWiki_error _ _ _ _ _ _ _ h
  · next olang otitle ho =>
    split at h
    · simp at h
    · split at h
      · next res t2 heq =>
        simp only [Prod.mk.injEq] at h
        obtain ⟨hb, t1, ht⟩ :=
          resolveFromOwnWiki_error _ _ _ _ _ _ _ (h.1 ▸ heq)
        refine ⟨hb, Call.wiki olang otitle :: t1, ?_⟩
        rw [← h.2, ht]
        rfl

/-- C4: when every attempted strategy fails, `resolve_source` raises the
error of the *last* strategy actually attempted — which is always the final
Baike attempt, the last call in the trace. -/
theorem resolve_exhaustion_last_error (env : Env) (name wl wt : Str)
    (fb : Str → Option Str) (e : Str) (t : List Call)
    (h : resolve_source env name wl wt fb = (.error e, t)) :
    env.baike name = .error e ∧ ∃ t1, t = t1 ++ [Call.baike name] := by
  unfold resolve_source at h
  split at h
  · split at h
    · simp at h
    · split at h
      · next res t2 heq =>
        simp only [Prod.mk.injEq] at h
        obtain ⟨hb2, t1, ht⟩ :=
          resolveFromOverrides_error _ _ _ _ _ _ _ (h.1 ▸ heq)
        refine ⟨hb2, Call.baike name :: t1, ?_⟩
        rw [← h.2, ht]
        rfl
  · exact resolveFromOverrides_error _ _ _ _ _ _ _ h

/-- C4 witness: with every provider failing, the raised error is the final
Baike attempt's error and that attempt closes the trace. -/
theorem resolve_exhaustion_last_error_witness :
    allFailEnv.baike "X".toList = .error "baike down".toList
    ∧ ∃ t1, ([Call.wiki "en".toList "T".toList, Call.baike "X".toList] : List Call)
        = t1 ++ [Call.baike "X".toList] :=
  resolve_exhaustion_last_error allFailEnv "X".toList "en".toList "T".toList
    (fun _ => none) "baike down".toList
    [Call.wiki "en".toList "T".toList, Call.baike "X".toList] rfl

/-! ## Resolution-chain precedence for Baike-preferred names -/

/-- C5: for a name in `BAIKE_PREFERRED`, a successful Baike API call is
returned as the chain's result with no other client invoked; on Baike
failure the chain continues with the remaining strategies instead of
aborting. -/
theorem preferred_tries_baike_first (env : Env) (name wl wt : Str)
    (fb : Str → Option Str) (hpref : baikePreferred name = true) :
    (∀ r, env.baike name = .ok r →
        resolve_source env name wl wt fb = (.ok r, [Call.baike name]))
    ∧ ∀ e, env.baike name = .error e →
        resolve_source env name wl wt fb =
          ((resolveFromOverrides env name wl wt fb).1,
            Call.baike name :: (resolveFromOverrides env name wl wt fb).2) := by
  constructor
  · intro r hr
    unfold resolve_source
    rw [if_pos hpref, hr]
  · intro e he
    unfold resolve_source
    rw [if_pos hpref, he]

/-- C5 witness: on the preferred name `周柯宇` with a working Baike API,
the chain returns the Baike result after exactly one call. -/
theorem preferred_tries_baike_first_witness :
    resolve_source baikeOnlyEnv "周柯宇".toList "zh".toList "T".toList
        (fun _ => none)
      = (.ok baikeResolved, [Call.baike "周柯宇".toList]) :=
  (preferred_tries_baike_first baikeOnlyEnv "周柯宇".toList "zh".toList
    "T".toList (fun _ => none) rfl).1 baikeResolved rfl

/-! ## The fallback-URL stage of the resolution chain -/

theorem finalBaikeStage_trace (env : Env) (name : Str) (t : List Call) :
    (finalBaikeStage env name t).2 = t ++ [Call.baike name] := by
  unfold finalBaikeStage
  split <;> rfl

/-- C7: when the entity's own summary lookup fails and a (non-empty)
fallback URL exists, the chain retries the summary client with
`(lang, title)` read off the URL — language from the host's first label,
title from the last path segment defaulting to `wikiTitle` — whenever the
URL's host contains `wikipedia.org`, and otherwise scrapes the fallback URL
with the Generic-Page client; either way a success there is returned. -/
theorem fallback_url_dispatch (env : Env) (name wl wt : Str)
    (fb : Str → Option Str) (u : Str) (e0 : Str)
    (hpref : baikePreferred name = false)
    (hov : findOverride name = none)
    (hwiki : env.wiki wl wt = .error e0)
    (hfb : fb name = some u) (hne : (u == []) = false) :
    (strHas "wikipedia.org".toList (netloc u) = true →
      ((resolve_source env name wl wt fb).2.take 2 =
          [Call.wiki wl wt, Call.wiki (fallbackLang u) (fallbackTitle wt u)]
        ∧ ∀ r, env.wiki (fallbackLang u) (fallbackTitle wt u) = .ok r →
            resolve_source env name wl wt fb =
              (.ok r, [Call.wiki wl wt,
                Call.wiki (fallbackLang u) (fallbackTitle wt u)])))
    ∧ (strHas "wikipedia.org".toList (netloc u) = false →
      ((resolve_source env name wl wt fb).2.take 2 =
          [Call.wiki wl wt, Call.generic u]
        ∧ ∀ r, env.generic u = .ok r →
            resolve_source env name wl wt fb =
              (.ok r, [Call.wiki wl wt, Call.generic u]))) := by
  have h0 : resolve_source env name wl wt fb
      = resolveFromOverrides env name wl wt fb := by
    unfold resolve_source
    rw [if_neg (by rw [hpref]; exact Bool.false_ne_true)]
  have h1 : resolveFromOverrides env name wl wt fb
      = resolveFromOwnWiki env name wl wt fb := by
    unfold resolveFromOverrides; rw [hov]
  have h2 : resolveFromOwnWiki env name wl wt fb
      = afterStep3Fail env name wt fb [Call.wiki wl wt] := by
    unfold resolveFromOwnWiki; rw [hwiki]
  have h3 : afterStep3Fail env name wt fb [Call.wiki wl wt]
      = match tryFallbackStage env wt u with
        | (some r, _, calls) => (.ok r, [Call.wiki wl wt] ++ calls)
        | (none, _, calls) =>
            finalBaikeStage env name ([Call.wiki wl wt] ++ calls) := by
    unfold afterStep3Fail
    simp only [hfb]
    rw [if_neg (by rw [hne]; exact Bool.false_ne_true)]
  have hall := (h0.trans h1).trans (h2.trans h3)
  constructor
  · intro hd
    have htf0 : tryFallbackStage env wt u
        = match env.wiki (fallbackLang u) (fallbackTitle wt u) with
          | .ok r =>
              (some r, none, [Call.wiki (fallbackLang u) (fallbackTitle wt u)])
          | .error e =>
              (none, some e, [Call.wiki (fallbackLang u) (fallbackTitle wt u)]) := by
      unfold tryFallbackStage; rw [if_pos hd]
    constructor
    · rcases hw2 : env.wiki (fallbackLang u) (fallbackTitle wt u) with e2 | r2
      · have hres : resolve_source env name wl wt fb
            = finalBaikeStage env name ([Call.wiki wl wt]
                ++ [Call.wiki (fallbackLang u) (fallbackTitle wt u)]) := by
          rw [hall, htf0, hw2]
        rw [hres, finalBaikeStage_trace]
        rfl
      · have hres : resolve_source env name wl wt fb
            = (.ok r2, [Call.wiki wl wt]
                ++ [Call.wiki (fallbackLang u) (fallbackTitle wt u)]) := by
          rw [hall, htf0, hw2]
        rw [hres]
        rfl
    · intro r hr
      rw [hall, htf0, hr]
      rfl
  · intro hd
    have htf0 : tryFallbackStage env wt u
        = match env.generic u with
          | .ok r => (some r, none, [Call.generic u])
          | .error e => (none, some e, [Call.generic u]) := by
      unfold tryFallbackStage
      rw [if_neg (by rw [hd]; exact Bool.false_ne_true)]
    constructor
    · rcases hw2 : env.generic u with e2 | r2
      · have hres : resolve_source env name wl wt fb
            = finalBaikeStage env name ([Call.wiki wl wt] ++ [Call.generic u]) := by
          rw [hall, htf0, hw2]
        rw [hres, finalBaikeStage_trace]
        rfl
      · have hres : resolve_source env name wl wt fb
            = (.ok r2, [Call.wiki wl wt] ++ [Call.generic u]) := by
          rw [hall, htf0, hw2]
        rw [hres]
        rfl
    · intro r hr
      rw [hall, htf0, hr]
      rfl

/-- C7 witness: entity `"X"` (not preferred, no override) whose own lookup
fails but whose fallback URL `https://en.wikipedia.org/wiki/Foo_Bar` is
reinterpreted as `("en", "Foo_Bar")` and succeeds. -/
theorem fallback_url_dispatch_witness :
    resolve_source enOnlyEnv "X".toList "zh".toList "T".toList enFallbackMap
      = (.ok enWikiResolved,
          [Call.wiki "zh".toList "T".toList,
            Call.wiki
              (fallbackLang "https://en.wikipedia.org/wiki/Foo_Bar".toList)
              (fallbackTitle "T".toList
                "https://en.wikipedia.org/wiki/Foo_Bar".toList)]) :=
  ((fallback_url_dispatch enOnlyEnv "X".toList "zh".toList "T".toList
    enFallbackMap "https://en.wikipedia.org/wiki/Foo_Bar".toList
    "wiki down".toList rfl rfl rfl rfl rfl).1 (by decide)).2
    enWikiResolved rfl

/-! ## The cache skip path -/

/-- C6: with the force flag unset, a manifest entry for the entity's name
whose referenced file exists on disk is reused verbatim, with an empty
outbound-call trace. -/
theorem cached_entry_skips (env : Env) (download : Str → Except Str Unit)
    (fileExists : Str → Bool) (m : List (JValue × JValue))
    (fb : Str → Option Str) (ent : Entity) (v : JValue)
    (hfind : findByStrKey m ent.name = some v)
    (hex : fileExists (entryPath v) = true) :
    processOne env download fileExists false m fb ent = (.inl v, []) := by
  unfold processOne
  rw [show (if false then none else findByStrKey m ent.name) = some v from hfind]
  show (if fileExists (entryPath v) = true
      then ((Sum.inl v, []) : (JValue ⊕ FailureRecord) × List Call)
      else processFresh env download fb ent) = (Sum.inl v, [])
  rw [if_pos hex]

/-- C6 witness: the cached entry for `"X"` is returned unchanged with no
network calls, on a filesystem where its file exists. -/
theorem cached_entry_skips_witness :
    processOne allFailEnv downloadOK fileYes false manifestX (fun _ => none)
      ⟨"X".toList, "en".toList, "T".toList⟩ = (.inl cachedEntryX, []) :=
  cached_entry_skips allFailEnv downloadOK fileYes manifestX (fun _ => none)
    ⟨"X".toList, "en".toList, "T".toList⟩ cachedEntryX rfl rfl

/-! ## Per-entity success/failure exclusivity

The key invariant: the map built by `buildExistingManifest` stores under the
key `.str n` only entries whose `"name"` field is `n`, so every recorded
result (cached or fresh) carries the name of the entity that produced it. -/

theorem jKeyEq_eq {a b : JValue} (h : jKeyEq a b = true) : a = b := by
  cases a <;> cases b <;> simp_all [jKeyEq]

theorem dictInsert_inv {acc : List (JValue × JValue)} {k v : JValue}
    (hacc : ∀ q ∈ acc, itemName q.2 = .ok q.1) (hkv : itemName v = .ok k) :
    ∀ q ∈ dictInsert acc k v, itemName q.2 = .ok q.1 := by
  induction acc with
  | nil =>
    intro q hq
    rcases List.mem_singleton.mp hq with rfl
    exact hkv
  | cons p rest ih =>
    intro q hq
    rcases p with ⟨k0, v0⟩
    unfold dictInsert at hq
    by_cases hk : jKeyEq k0 k = true
    · rw [if_pos hk] at hq
      rcases List.mem_cons.mp hq with rfl | hq
      · simpa [jKeyEq_eq hk] using hkv
      · exact hacc _ (List.mem_cons_of_mem _ hq)
    · rw [if_neg hk] at hq
      rcases List.mem_cons.mp hq with rfl | hq
      · exact hacc _ (List.mem_cons_self _ _)
      · exact ih (fun q hq => hacc _ (List.mem_cons_of_mem _ hq)) q hq

theorem buildFold_inv :
    ∀ (items : List JValue) (acc m : List (JValue × JValue)),
      (∀ q ∈ acc, itemName q.2 = .ok q.1) → buildFold items acc = .ok m →
        ∀ q ∈ m, itemName q.2 = .ok q.1 := by
  intro items
  induction items with
  | nil =>
    intro acc m hacc h q hq
    rw [buildFold] at h
    have hm : acc = m := Except.ok.inj h
    subst hm
    exact hacc q hq
  | cons item rest ih =>
    intro acc m hacc h q hq
    rw [buildFold] at h
    rcases hi : itemName item with e | k <;> rw [hi] at h
    · exact absurd h (by simp)
    · exact ih _ _ (dictInsert_inv hacc hi) h q hq

theorem findByStrKey_aligned {m : List (JValue × JValue)}
    (hinv : ∀ q ∈ m, itemName q.2 = .ok q.1) {n : Str} {v : JValue}
    (h : findByStrKey m n = some v) : jName v = n := by
  unfold findByStrKey at h
  rcases hfp : m.find? (fun p =>
      match p.1 with
      | .str s => s == n
      | _ => false) with _ | pair
  · rw [hfp] at h; exact absurd h (by simp)
  · rw [hfp] at h
    have hv : pair.2 = v := Option.some.inj h
    have hmem := List.mem_of_find?_eq_some hfp
    have hpred := List.find?_some hfp
    rcases pair with ⟨pk, pv⟩
    rcases pk with _ | b | i | s | xs | fs2
    · simp at hpred
    · simp at hpred
    · simp at hpred
    · have hs : s = n := by simpa using hpred
      subst hs
      have hok := hinv _ hmem
      rcases pv with _ | b2 | i2 | s2 | xs2 | fs
      · exact absurd hok (by simp [itemName])
      · exact absurd hok (by simp [itemName])
      · exact absurd hok (by simp [itemName])
      · exact absurd hok (by simp [itemName])
      · exact absurd hok (by simp [itemName])
      · simp only [itemName] at hok
        rcases hlk : pyLookup fs "name".toList with _ | w <;>
          simp only [hlk] at hok
        · exact absurd hok (by simp)
        · by_cases hw : jHashable w = true
          · rw [if_pos hw] at hok
            have hwv : w = .str s := Except.ok.inj hok
            subst hv
            simp only [jName, hlk, hwv]
          · rw [if_neg hw] at hok
            exact absurd hok (by simp)
    · simp at hpred
    · simp at hpred

theorem build_aligned {p : Option JValue} {m : List (JValue × JValue)}
    (hm : buildExistingManifest p = .ok m) :
    ∀ n v, findByStrKey m n = some v → jName v = n := by
  intro n v h
  rcases p with _ | j
  · have : m = [] := (Except.ok.inj hm).symm
    subst this
    exact absurd h (by simp [findByStrKey])
  · rcases j with _ | _ | _ | s | items | fs
    · exact absurd hm (by simp [buildExistingManifest])
    · exact absurd hm (by simp [buildExistingManifest])
    · exact absurd hm (by simp [buildExistingManifest])
    · rcases s with _ | ⟨c, cs⟩
      · have : m = [] := (Except.ok.inj hm).symm
        subst this
        exact absurd h (by simp [findByStrKey])
      · exact absurd hm (by simp [buildExistingManifest])
    · exact findByStrKey_aligned
        (buildFold_inv items [] m (by simp) hm) h
    · rcases fs with _ | ⟨f, fs'⟩
      · have : m = [] := (Except.ok.inj hm).symm
        subst this
        exact absurd h (by simp [findByStrKey])
      · exact absurd hm (by simp [buildExistingManifest])

theorem jName_freshEntry (n filename : Str) (r : Resolved) :
    jName (freshEntry n filename r) = n := rfl

theorem processFresh_names (env : Env) (dl : Str → Except Str Unit)
    (fb : Str → Option Str) (ent : Entity) :
    (∀ v t, processFresh env dl fb ent = (.inl v, t) → jName v = ent.name)
    ∧ (∀ f t, processFresh env dl fb ent = (.inr f, t) → f.name = ent.name) := by
  constructor <;> intro x t h <;> unfold processFresh at h <;> split at h
  · simp at h
  · dsimp only at h
    split at h
    · simp at h
    · simp only [Prod.mk.injEq, Sum.inl.injEq] at h
      rw [← h.1, jName_freshEntry]
  · simp only [Prod.mk.injEq, Sum.inr.injEq] at h
    rw [← h.1]
  · dsimp only at h
    split at h
    · simp only [Prod.mk.injEq, Sum.inr.injEq] at h
      rw [← h.1]
    · simp at h

theorem processOne_names (env : Env) (dl : Str → Except Str Unit)
    (fe : Str → Bool) (force : Bool) (m : List (JValue × JValue))
    (fb : Str → Option Str)
    (hal : ∀ n v, findByStrKey m n = some v → jName v = n) (ent : Entity) :
    (∀ v t, processOne env dl fe force m fb ent = (.inl v, t) → jName v = ent.name)
    ∧ (∀ f t, processOne env dl fe force m fb ent = (.inr f, t) →
        f.name = ent.name) := by
  cases force with
  | true =>
    have heq : processOne env dl fe true m fb ent = processFresh env dl fb ent := by
      unfold processOne; rfl
    rw [heq]
    exact processFresh_names env dl fb ent
  | false =>
    rcases hk : findByStrKey m ent.name with _ | v0
    · have heq : processOne env dl fe false m fb ent
          = processFresh env dl fb ent := by
        unfold processOne
        rw [show (if false then none else findByStrKey m ent.name)
            = (none : Option JValue) from hk]
      rw [heq]
      exact processFresh_names env dl fb ent
    · by_cases hfe : fe (entryPath v0) = true
      · have heq : processOne env dl fe false m fb ent = (.inl v0, []) := by
          unfold processOne
          rw [show (if false then none else findByStrKey m ent.name)
              = some v0 from hk]
          show (if fe (entryPath v0) = true
              then ((Sum.inl v0, []) : (JValue ⊕ FailureRecord) × List Call)
              else processFresh env dl fb ent) = (Sum.inl v0, [])
          rw [if_pos hfe]
        rw [heq]
        constructor
        · intro v t h
          simp only [Prod.mk.injEq, Sum.inl.injEq] at h
          rw [← h.1]
          exact hal ent.name v0 hk
        · intro f t h
          simp at h
      · have heq : processOne env dl fe false m fb ent
            = processFresh env dl fb ent := by
          unfold processOne
          rw [show (if false then none else findByStrKey m ent.name)
              = some v0 from hk]
          show (if fe (entryPath v0) = true
              then ((Sum.inl v0, []) : (JValue ⊕ FailureRecord) × List Call)
              else processFresh env dl fb ent) = processFresh env dl fb ent
          rw [if_neg hfe]
        rw [heq]
        exact processFresh_names env dl fb ent

theorem runAll_length (env : Env) (dl : Str → Except Str Unit)
    (fe : Str → Bool) (force : Bool) (m : List (JValue × JValue))
    (fb : Str → Option Str) :
    ∀ ents : List Entity,
      (runAll env dl fe force m fb ents).1.length
        + (runAll env dl fe force m fb ents).2.length = ents.length := by
  intro ents
  induction ents with
  | nil => rfl
  | cons ent rest ih =>
    rcases hp : processOne env dl fe force m fb ent with ⟨pres, ptr⟩
    cases pres with
    | inl v =>
      have h1 : runAll env dl fe force m fb (ent :: rest)
          = (v :: (runAll env dl fe force m fb rest).1,
              (runAll env dl fe force m fb rest).2) := by
        simp only [runAll, hp]
      rw [h1]
      simp only [List.length_cons]
      omega
    | inr f =>
      have h1 : runAll env dl fe force m fb (ent :: rest)
          = ((runAll env dl fe force m fb rest).1,
              f :: (runAll env dl fe force m fb rest).2) := by
        simp only [runAll, hp]
      rw [h1]
      simp only [List.length_cons]
      omega

theorem runAll_count (env : Env) (dl : Str → Except Str Unit)
    (fe : Str → Bool) (force : Bool) (m : List (JValue × JValue))
    (fb : Str → Option Str)
    (hal : ∀ n v, findByStrKey m n = some v → jName v = n) :
    ∀ (ents : List Entity) (n : Str),
      ((runAll env dl fe force m fb ents).1.map jName).count n
        + ((runAll env dl fe force m fb ents).2.map FailureRecord.name).count n
      = (ents.map Entity.name).count n := by
  intro ents
  induction ents with
  | nil => intro n; rfl
  | cons ent rest ih =>
    intro n
    rcases hp : processOne env dl fe force m fb ent with ⟨pres, ptr⟩
    cases pres with
    | inl v =>
      have h1 : runAll env dl fe force m fb (ent :: rest)
          = (v :: (runAll env dl fe force m fb rest).1,
              (runAll env dl fe force m fb rest).2) := by
        simp only [runAll, hp]
      have hn : jName v = ent.name :=
        (processOne_names env dl fe force m fb hal ent).1 v ptr hp
      rw [h1]
      simp only [List.map_cons, List.count_cons, hn]
      have := ih n
      omega
    | inr f =>
      have h1 : runAll env dl fe force m fb (ent :: rest)
          = ((runAll env dl fe force m fb rest).1,
              f :: (runAll env dl fe force m fb rest).2) := by
        simp only [runAll, hp]
      have hn : f.name = ent.name :=
        (processOne_names env dl fe force m fb hal ent).2 f ptr hp
      rw [h1]
      simp only [List.map_cons, List.count_cons, hn]
      have := ih n
      omega

theorem count_le_one_of_nodup {l : List Str} (h : l.Nodup) (n : Str) :
    l.count n ≤ 1 := by
  induction l with
  | nil => exact Nat.zero_le 1
  | cons a l ih =>
    rw [List.nodup_cons] at h
    rw [List.count_cons]
    by_cases ha : (a == n) = true
    · have han : a = n := by simpa using ha
      subst han
      have hz : l.count a = 0 := by
        rw [List.count_eq_zero]
        exact h.1
      rw [hz, ha]
      simp
    · rw [Bool.not_eq_true] at ha
      rw [ha]
      simpa using ih h.2

theorem dedupGo_nodup :
    ∀ (l : List Entity) (seen : List Str),
      ((dedupGo seen l).map Entity.name).Nodup
      ∧ ∀ n ∈ (dedupGo seen l).map Entity.name, seen.contains n = false := by
  intro l
  induction l with
  | nil => intro seen; exact ⟨List.nodup_nil, by simp [dedupGo]⟩
  | cons e rest ih =>
    intro seen
    unfold dedupGo
    by_cases hc : seen.contains e.name = true
    · rw [if_pos hc]
      exact ih seen
    · rw [if_neg hc]
      have ih2 := ih (e.name :: seen)
      constructor
      · rw [List.map_cons, List.nodup_cons]
        refine ⟨fun hmem => ?_, ih2.1⟩
        have := ih2.2 e.name hmem
        simp at this
      · intro n hn
        rcases List.mem_cons.mp hn with rfl | hn
        · exact Bool.not_eq_true _ ▸ hc
        · have := ih2.2 n hn
          simp only [List.contains_cons, Bool.or_eq_false_iff] at this
          exact this.2

/-- C9: over the deduplicated entity list, with a manifest loaded by
`buildExistingManifest`, every entity ends in exactly one of the success or
failure list (a failure never aborts the loop), and no name occurs in
both. -/
theorem per_entity_success_xor_failure (env : Env)
    (dl : Str → Except Str Unit) (fe : Str → Bool) (force : Bool)
    (p : Option JValue) (m : List (JValue × JValue))
    (fb : Str → Option Str) (raw : List Entity)
    (hm : buildExistingManifest p = .ok m) :
    ((runAll env dl fe force m fb (dedupByName raw)).1.length
        + (runAll env dl fe force m fb (dedupByName raw)).2.length
      = (dedupByName raw).length)
    ∧ ∀ n : Str,
        ¬ (n ∈ (runAll env dl fe force m fb (dedupByName raw)).1.map jName
          ∧ n ∈ (runAll env dl fe force m fb (dedupByName raw)).2.map
              FailureRecord.name) := by
  have hal := build_aligned hm
  refine ⟨runAll_length env dl fe force m fb _, fun n hboth => ?_⟩
  have hcount := runAll_count env dl fe force m fb hal (dedupByName raw) n
  have hnodup : ((dedupByName raw).map Entity.name).Nodup :=
    (dedupGo_nodup raw []).1
  have hle := count_le_one_of_nodup hnodup n
  have c1 : 0 <
      ((runAll env dl fe force m fb (dedupByName raw)).1.map jName).count n :=
    List.count_pos_iff.mpr hboth.1
  have c2 : 0 <
      ((runAll env dl fe force m fb (dedupByName raw)).2.map
        FailureRecord.name).count n :=
    List.count_pos_iff.mpr hboth.2
  omega

/-- C9 witness: a one-entity run with an empty (decode-failed) manifest:
`"X"` cannot land in both the success and the failure list. -/
theorem per_entity_success_xor_failure_witness :
    ¬ ("X".toList ∈ (runAll allFailEnv downloadOK fileYes false []
          (fun _ => none)
          (dedupByName [⟨"X".toList, "en".toList, "T".toList⟩])).1.map jName
      ∧ "X".toList ∈ (runAll allFailEnv downloadOK fileYes false []
          (fun _ => none)
          (dedupByName [⟨"X".toList, "en".toList, "T".toList⟩])).2.map
            FailureRecord.name) :=
  (per_entity_success_xor_failure allFailEnv downloadOK fileYes false none []
    (fun _ => none) [⟨"X".toList, "en".toList, "T".toList⟩] rfl).2 "X".toList

end DownloadAssets
